import Mathlib

/-!
# Verification of `scripts/generate-site-index.py`

A shallow embedding of the site-index generator: the configuration reader
(`get_base_url`), the front-matter extractor (`parse_front_matter`), the URL
deriver (`path_to_url`) and the assembly entry point (`main`), modelled as pure
Lean functions over code-point lists (Python strings are sequences of code
points, matched here by `List Char`).  Fallible operations (`open` on a missing
file, `str.index` with no occurrence) are modelled with `Except`/`Option`.
-/

namespace SiteIndex

/-! ## Python string primitives -/

/-- The double-quote character. -/
def dquote : Char := Char.ofNat 34

/-- The single-quote character. -/
def squote : Char := Char.ofNat 39

/-- ASCII whitespace recognised by Python `str.strip()` and by the regex
class `\s` (restricted to ASCII, which is all the program ever meets). -/
def pyIsSpace (c : Char) : Bool :=
  c = ' ' || c = '\t' || c = '\n' || c = '\x0d' || c = '\x0b' || c = '\x0c'

/-- Python `str.strip()`: drop leading and trailing whitespace. -/
def pyStrip (l : List Char) : List Char :=
  ((l.dropWhile pyIsSpace).reverse.dropWhile pyIsSpace).reverse

/-- Python `str.split(sep)` with a one-character separator: split at every
occurrence; `"".split(sep) == [""]`. -/
def pySplit1 (sep : Char) : List Char → List (List Char)
  | [] => [[]]
  | c :: t =>
    let r := pySplit1 sep t
    if c = sep then
      [] :: r
    else
      match r with
      | [] => [[c]]
      | h :: t2 => (c :: h) :: t2

/-- Python `str.replace(a, b)` for one-character `a`, `b`. -/
def pyReplaceChar (a b : Char) (l : List Char) : List Char :=
  l.map fun c => if c = a then b else c

/-- Python `str.replace(pat, rep)` for a non-empty `pat`: replace every
occurrence, scanning left to right without overlap.  The `Nat` argument counts
characters of a just-matched pattern still to be consumed. -/
def pyReplaceAux (pat rep : List Char) : List Char → Nat → List Char
  | [], _ => []
  | _ :: t, n + 1 => pyReplaceAux pat rep t n
  | c :: t, 0 =>
    if pat.isPrefixOf (c :: t) then
      rep ++ pyReplaceAux pat rep t (pat.length - 1)
    else
      c :: pyReplaceAux pat rep t 0

/-- Python `str.replace(pat, rep)` (non-empty `pat`). -/
def pyReplace (pat rep l : List Char) : List Char :=
  pyReplaceAux pat rep l 0

/-- Python `str.find(sub)` restricted to success:
the least index at which `needle` occurs in `hay`, if any. -/
def findSub (needle : List Char) : List Char → Option Nat
  | [] => if needle.isPrefixOf ([] : List Char) then some 0 else none
  | c :: t =>
    if needle.isPrefixOf (c :: t) then some 0
    else (findSub needle t).map (· + 1)

/-- Python `str.index(sub, start)`: the least index `≥ start` at which
`needle` occurs, or `none` (Python raises `ValueError`). -/
def strIndexFrom (l needle : List Char) (start : Nat) : Option Nat :=
  (findSub needle (l.drop start)).map (· + start)

/-- Python `str.rfind(ch)` for a single character: index of the last
occurrence, if any. -/
def rfindChar (ch : Char) : List Char → Option Nat
  | [] => none
  | c :: t =>
    match rfindChar ch t with
    | some i => some (i + 1)
    | none => if c = ch then some 0 else none

/-- Python `str.rstrip("/")`: drop every trailing `/`. -/
def rstripSlash (l : List Char) : List Char :=
  (l.reverse.dropWhile (· = '/')).reverse

/-- Python `str.title()` (ASCII): a letter is uppercased when the previous
character is not a letter, lowercased otherwise. -/
def pyTitleAux : List Char → Bool → List Char
  | [], _ => []
  | c :: t, prevCased =>
    if c.isAlpha then
      (if prevCased then c.toLower else c.toUpper) :: pyTitleAux t true
    else
      c :: pyTitleAux t false

/-- Python `str.title()` on a string. -/
def pyTitle (s : String) : String :=
  String.mk (pyTitleAux s.toList false)

/-- `pathlib.PurePath.stem`: the final component's name without its last
suffix.  Python: `i = name.rfind('.'); name[:i] if 0 < i < len(name) - 1 else
name`. -/
def pyStem (name : String) : String :=
  let l := name.toList
  match rfindChar '.' l with
  | some i => if 0 < i ∧ i < l.length - 1 then String.mk (l.take i) else name
  | none => name

/-! ## Regex model

The script uses exactly two regular expressions, both of shape
`key\s*=\s*["\']([^"\']+)["\']`.  For this pattern Python's backtracking
search is deterministic: after the literal key, a maximal ASCII-whitespace
run must be followed by `=`, then another maximal whitespace run, an opening
quote (either kind), a maximal non-empty run of non-quote characters (the
captured group), and one more quote (either kind, not necessarily matching
the opener). -/

/-- Is `c` one of the two quote characters of the class `["\']`? -/
def isQuote (c : Char) : Bool := c = dquote || c = squote

/-- Match `key\s*=\s*["\']([^"\']+)["\']` anchored at the head of `l`
(Python `re.match` against this pattern); returns the captured group. -/
def reMatchKeyQuoted (key : List Char) (l : List Char) : Option (List Char) :=
  if key.isPrefixOf l then
    match (l.drop key.length).dropWhile pyIsSpace with
    | '=' :: r =>
      match r.dropWhile pyIsSpace with
      | q :: r2 =>
        if isQuote q then
          let grp := r2.takeWhile (fun c => !isQuote c)
          match r2.drop grp.length with
          | _ :: _ => if grp.isEmpty then none else some grp
          | [] => none
        else none
      | [] => none
    | _ => none
  else none

/-- Python `re.search` for the same pattern: try each start position from the
left and return the first successful match's captured group. -/
def reSearchKeyQuoted (key : List Char) : List Char → Option (List Char)
  | [] => reMatchKeyQuoted key []
  | c :: t =>
    match reMatchKeyQuoted key (c :: t) with
    | some g => some g
    | none => reSearchKeyQuoted key t

/-! ## `get_base_url` -/

/-- The hardcoded fallback URL of `get_base_url`. -/
def defaultBaseUrl : String := "https://parallax-labs.github.io/context-harness"

/-- One step of the config scan: the capture of
`re.match(r'base_url\s*=\s*["\']([^"\']+)["\']', line)`. -/
def baseUrlMatch (line : String) : Option String :=
  (reMatchKeyQuoted "base_url".toList line.toList).map String.mk

/-- The `for line in f` loop of `get_base_url`: first matching line wins and
its capture is returned with trailing slashes stripped. -/
def baseUrlScan : List String → Option String
  | [] => none
  | line :: rest =>
    match baseUrlMatch line with
    | some v => some (String.mk (rstripSlash v.toList))
    | none => baseUrlScan rest

/-- `get_base_url()`.  The configuration file is modelled as `none` (absent:
`open` raises `FileNotFoundError`, propagated as `Except.error`) or
`some lines`. -/
def get_base_url (config : Option (List String)) : Except Unit String :=
  match config with
  | none => .error ()
  | some lines =>
    match baseUrlScan lines with
    | some v => .ok v
    | none => .ok defaultBaseUrl

/-! ## `parse_front_matter` -/

/-- The default title: `path.stem.replace("-", " ").replace("_", " ").title()`. -/
def defaultTitle (stem : String) : String :=
  pyTitle (String.mk (pyReplaceChar '_' ' ' (pyReplaceChar '-' ' ' stem.toList)))

/-- One iteration of the front-matter line loop: conditionally overwrite the
running title and description. -/
def fmLineStep (st : String × String) (line : String) : String × String :=
  (if "title".toList.isPrefixOf (pyStrip line.toList) then
      match reSearchKeyQuoted "title".toList line.toList with
      | some g => String.mk g
      | none => st.1
    else st.1,
   if "description".toList.isPrefixOf (pyStrip line.toList) then
      match reSearchKeyQuoted "description".toList line.toList with
      | some g => String.mk g
      | none => st.2
    else st.2)

/-- `parse_front_matter(path)`, with the file abstracted to its stem and its
text.  `none` models the uncaught `ValueError` of `text.index("+++", 3)` when
the closing delimiter is missing. -/
def parse_front_matter (stem text : String) : Option (String × String) :=
  let title := defaultTitle stem
  let description := ""
  if "+++".toList.isPrefixOf text.toList then
    match strIndexFrom text.toList "+++".toList 3 with
    | none => none
    | some e =>
      let fm := (text.toList.drop 3).take (e - 3)
      some (((pySplit1 '\n' fm).map String.mk).foldl fmLineStep (title, description))
  else
    some (title, description)

/-! ## `path_to_url` -/

/-- The component split of `path_to_url`:
`rel_path.replace("\\", "/").split("/")`. -/
def splitParts (rel : String) : List String :=
  (pySplit1 '/' (pyReplaceChar '\\' '/' rel.toList)).map String.mk

/-- `"/".join(parts)`. -/
def joinSlash (parts : List String) : String :=
  String.mk (List.intercalate ['/'] (parts.map String.toList))

/-- `path_to_url(rel_path, base_url)`. -/
def path_to_url (rel base : String) : String :=
  if (splitParts rel).getLast? = some "_index.md" then
    base ++ "/" ++ joinSlash (splitParts rel).dropLast ++ "/"
  else
    base ++ "/" ++
      joinSlash ((splitParts rel).dropLast ++
        [String.mk (pyReplace ".md".toList [] ((splitParts rel).getLast?.getD "").toList)]) ++
      "/"

/-! ## `main`: discovery and assembly

A content tree is modelled as the list of files `CONTENT.rglob("*.md")`
yields, each given by the components of its path relative to `CONTENT`
(`rel.parts`, nonempty, each component nonempty and separator-free for a real
filesystem path) together with its text.  `sorted(...)` orders `Path` values
by their component tuples (CPython `PurePath.__lt__` compares `_cparts`);
since every discovered path shares the `CONTENT` prefix, that is the
lexicographic order on the relative-part lists, with strings compared by code
point. -/

/-- A discovered Markdown file: relative-path components and file text. -/
structure MdFile where
  parts : List String
  text : String
deriving DecidableEq

/-- An output record `{title, url, description}`. -/
structure Entry where
  title : String
  url : String
  description : String
deriving DecidableEq

/-- Python `<` on strings: strict lexicographic order on code points. -/
def strLtb : List Char → List Char → Bool
  | [], [] => false
  | [], _ :: _ => true
  | _ :: _, [] => false
  | a :: as, b :: bs =>
    if a.toNat < b.toNat then true
    else if a = b then strLtb as bs
    else false

/-- Python `<` on `str` values. -/
def pyStrLt (a b : String) : Bool := strLtb a.toList b.toList

/-- Lexicographic `≤` on component lists: the order CPython uses to compare
`PurePath` values (comparison of the `_cparts` tuples). -/
def partsLeB : List String → List String → Bool
  | [], _ => true
  | _ :: _, [] => false
  | a :: as, b :: bs =>
    if pyStrLt a b then true
    else if a = b then partsLeB as bs
    else false

/-- The sort order of `sorted(CONTENT.rglob("*.md"))` on the model. -/
def fileLe (f g : MdFile) : Prop := partsLeB f.parts g.parts = true

instance : DecidableRel fileLe := fun f g =>
  inferInstanceAs (Decidable (partsLeB f.parts g.parts = true))

/-- `str(rel)`: a relative `PosixPath` prints as its components joined by
`/`. -/
def relStr (f : MdFile) : String :=
  String.mk (List.intercalate ['/'] (f.parts.map String.toList))

/-- The skip test of the loop: `rel.parts[0].startswith("_")` (the part list
of a real file is nonempty). -/
def skipFile (f : MdFile) : Bool :=
  match f.parts.head? with
  | some h => "_".toList.isPrefixOf h.toList
  | none => false

/-- `path.stem` of a discovered file: the stem of its last component. -/
def fileStem (f : MdFile) : String := pyStem (f.parts.getLast?.getD "")

/-- The per-file body of the loop: parse front matter (may fail) and build
the entry (`description or ""` is the identity on strings and is kept as the
conditional it is). -/
def fileEntry (base : String) (f : MdFile) : Except Unit Entry :=
  match parse_front_matter (fileStem f) f.text with
  | none => .error ()
  | some (t, d) =>
    .ok ⟨t, path_to_url (relStr f) base, if d = "" then "" else d⟩

/-- The two hardcoded entries appended before the scan loop. -/
def staticEntries (base : String) : List Entry :=
  [⟨"Context Harness", base ++ "/", "Local-first context engine for AI tools"⟩,
   ⟨"Demo", base ++ "/demo/", "Search a pre-built knowledge base in your browser"⟩]

/-- The entry list `main` accumulates: the two static entries, then one entry
per non-skipped file of the sorted scan; a `parse_front_matter` failure aborts
the run (uncaught `ValueError`), as does a missing configuration file. -/
def mainEntries (config : Option (List String)) (files : List MdFile) :
    Except Unit (List Entry) :=
  match get_base_url config with
  | .error e => .error e
  | .ok base =>
    match ((files.insertionSort fileLe).filter (fun f => !skipFile f)).mapM
        (fileEntry base) with
    | .error e => .error e
    | .ok es => .ok (staticEntries base ++ es)

/-! ## JSON serialization (`json.dump(entries, f, indent=2)`) -/

/-- Lowercase hex digit. -/
def hexDigit (n : Nat) : Char :=
  if n < 10 then Char.ofNat (48 + n) else Char.ofNat (87 + n)

/-- `\uXXXX`, four lowercase hex digits. -/
def uEscape (n : Nat) : List Char :=
  ['\\', 'u', hexDigit (n / 4096 % 16), hexDigit (n / 256 % 16),
   hexDigit (n / 16 % 16), hexDigit (n % 16)]

/-- Escape one character as Python `json` with `ensure_ascii=True` does. -/
def jsonEscapeChar (c : Char) : List Char :=
  if c = dquote then ['\\', dquote]
  else if c = '\\' then ['\\', '\\']
  else if c = '\n' then ['\\', 'n']
  else if c = '\t' then ['\\', 't']
  else if c = '\x0d' then ['\\', 'r']
  else if c = '\x08' then ['\\', 'b']
  else if c = '\x0c' then ['\\', 'f']
  else if c.toNat < 32 || c.toNat > 126 then
    if c.toNat < 65536 then uEscape c.toNat
    else
      uEscape (55296 + (c.toNat - 65536) / 1024) ++ uEscape (56320 + (c.toNat - 65536) % 1024)
  else [c]

/-- A JSON string literal for `s`. -/
def jsonString (s : String) : String :=
  String.mk (dquote :: (s.toList.flatMap jsonEscapeChar) ++ [dquote])

/-- One entry as `json.dump` prints it at `indent=2` nesting level 1. -/
def jsonEntry (e : Entry) : String :=
  "  \x7b\n    " ++ jsonString "title" ++ ": " ++ jsonString e.title ++ ",\n    "
    ++ jsonString "url" ++ ": " ++ jsonString e.url ++ ",\n    "
    ++ jsonString "description" ++ ": " ++ jsonString e.description ++ "\n  \x7d"

/-- `json.dump(entries, f, indent=2)`: the exact text written to the output
file. -/
def serializeEntries (entries : List Entry) : String :=
  match entries with
  | [] => "[]"
  | _ => "[\n" ++ String.intercalate ",\n" (entries.map jsonEntry) ++ "\n]"

/-- The content of the output file after one run, given its previous content.
The output is opened with mode `"w"` only after the scan succeeds, so a run
that fails (missing configuration file, unclosed front matter) leaves the
previous content in place, and a successful run replaces it wholesale. -/
def runFileResult (config : Option (List String)) (files : List MdFile)
    (prev : String) : String :=
  match mainEntries config files with
  | .error _ => prev
  | .ok es => serializeEntries es

/-! ## Spec-side reformulations

Definitions below follow the specification's words rather than the code; they
exist to be compared against the code-derived definitions above. -/

/-- The spec's "a line whose trimmed content starts with `title` and somewhere
contains a quoted string assigned to it": the value such a line contributes,
if any. -/
def titleMatchOf (line : String) : Option String :=
  if "title".toList.isPrefixOf (pyStrip line.toList) then
    (reSearchKeyQuoted "title".toList line.toList).map String.mk
  else none

/-- Likewise for `description` lines. -/
def descMatchOf (line : String) : Option String :=
  if "description".toList.isPrefixOf (pyStrip line.toList) then
    (reSearchKeyQuoted "description".toList line.toList).map String.mk
  else none

/-- The front-matter block lines of a text whose closing delimiter sits at
code-point index `e`: the lines of `text[3:e]`. -/
def fmLinesOf (text : String) (e : Nat) : List String :=
  (pySplit1 '\n' ((text.toList.drop 3).take (e - 3))).map String.mk

/-- The ordering the claim about output order asserts: lexicographic on the
full relative-path *string* (not, as the code has it, on the component
tuple). -/
def specFullPathLe (f g : MdFile) : Prop :=
  strLtb (relStr f).toList (relStr g).toList = true ∨ relStr f = relStr g

instance : DecidableRel specFullPathLe := fun f g =>
  inferInstanceAs
    (Decidable (strLtb (relStr f).toList (relStr g).toList = true ∨ relStr f = relStr g))

/-- `main` as the ordering claim describes it: identical to `mainEntries`
except that discovered files are ordered by full-path-string lexicographic
order. -/
def spec_mainEntries (config : Option (List String)) (files : List MdFile) :
    Except Unit (List Entry) :=
  match get_base_url config with
  | .error e => .error e
  | .ok base =>
    match ((files.insertionSort specFullPathLe).filter (fun f => !skipFile f)).mapM
        (fileEntry base) with
    | .error e => .error e
    | .ok es => .ok (staticEntries base ++ es)

/-! ## Order facts about the sort comparison -/

theorem charToNat_inj {a b : Char} (h : a.toNat = b.toNat) : a = b :=
  Char.ext (UInt32.ext h)

theorem strLtb_cons_iff {x y : Char} {as bs : List Char} :
    strLtb (x :: as) (y :: bs) = true ↔
      x.toNat < y.toNat ∨ (x = y ∧ strLtb as bs = true) := by
  simp only [strLtb]
  by_cases h1 : x.toNat < y.toNat
  · simp [h1]
  · by_cases h2 : x = y <;> simp [h1, h2]

theorem strLtb_irrefl : ∀ a : List Char, strLtb a a = false
  | [] => rfl
  | x :: as => by
    simp only [strLtb, Nat.lt_irrefl, if_false, if_pos rfl]
    exact strLtb_irrefl as

theorem strLtb_trans :
    ∀ {a b c : List Char}, strLtb a b = true → strLtb b c = true → strLtb a c = true
  | [], _ :: _, _ :: _, _, _ => rfl
  | x :: as, y :: bs, z :: cs, h1, h2 => by
    rcases strLtb_cons_iff.mp h1 with hxy | ⟨hxy, h1'⟩ <;>
      rcases strLtb_cons_iff.mp h2 with hyz | ⟨hyz, h2'⟩
    · exact strLtb_cons_iff.mpr (Or.inl (Nat.lt_trans hxy hyz))
    · exact strLtb_cons_iff.mpr (Or.inl (hyz ▸ hxy))
    · exact strLtb_cons_iff.mpr (Or.inl (hxy ▸ hyz))
    · exact strLtb_cons_iff.mpr (Or.inr ⟨hxy.trans hyz, strLtb_trans h1' h2'⟩)

theorem strLtb_total :
    ∀ a b : List Char, strLtb a b = true ∨ a = b ∨ strLtb b a = true
  | [], [] => Or.inr (Or.inl rfl)
  | [], _ :: _ => Or.inl rfl
  | _ :: _, [] => Or.inr (Or.inr rfl)
  | x :: as, y :: bs => by
    rcases Nat.lt_trichotomy x.toNat y.toNat with h | h | h
    · exact Or.inl (strLtb_cons_iff.mpr (Or.inl h))
    · have hxy : x = y := charToNat_inj h
      subst hxy
      rcases strLtb_total as bs with h2 | h2 | h2
      · exact Or.inl (strLtb_cons_iff.mpr (Or.inr ⟨rfl, h2⟩))
      · exact Or.inr (Or.inl (by rw [h2]))
      · exact Or.inr (Or.inr (strLtb_cons_iff.mpr (Or.inr ⟨rfl, h2⟩)))
    · exact Or.inr (Or.inr (strLtb_cons_iff.mpr (Or.inl h)))

theorem pyStrLt_irrefl (a : String) : pyStrLt a a = false :=
  strLtb_irrefl a.toList

theorem pyStrLt_trans {a b c : String} (h1 : pyStrLt a b = true)
    (h2 : pyStrLt b c = true) : pyStrLt a c = true :=
  strLtb_trans h1 h2

theorem pyStrLt_total (a b : String) :
    pyStrLt a b = true ∨ a = b ∨ pyStrLt b a = true := by
  rcases strLtb_total a.toList b.toList with h | h | h
  · exact Or.inl h
  · refine Or.inr (Or.inl ?_)
    cases a with
    | mk la =>
      cases b with
      | mk lb => exact congrArg String.mk h
  · exact Or.inr (Or.inr h)

theorem partsLeB_cons_iff {x y : String} {as bs : List String} :
    partsLeB (x :: as) (y :: bs) = true ↔
      pyStrLt x y = true ∨ (x = y ∧ partsLeB as bs = true) := by
  simp only [partsLeB]
  by_cases h1 : pyStrLt x y = true
  · simp [h1]
  · by_cases h2 : x = y <;> simp [h1, h2]

theorem partsLeB_trans :
    ∀ {a b c : List String}, partsLeB a b = true → partsLeB b c = true → partsLeB a c = true
  | [], _, _, _, _ => rfl
  | _ :: _, [], _, h1, _ => absurd h1 (by simp [partsLeB])
  | _ :: _, _ :: _, [], _, h2 => absurd h2 (by simp [partsLeB])
  | x :: as, y :: bs, z :: cs, h1, h2 => by
    rcases partsLeB_cons_iff.mp h1 with hxy | ⟨hxy, h1'⟩ <;>
      rcases partsLeB_cons_iff.mp h2 with hyz | ⟨hyz, h2'⟩
    · exact partsLeB_cons_iff.mpr (Or.inl (pyStrLt_trans hxy hyz))
    · exact partsLeB_cons_iff.mpr (Or.inl (hyz ▸ hxy))
    · exact partsLeB_cons_iff.mpr (Or.inl (hxy ▸ hyz))
    · exact partsLeB_cons_iff.mpr (Or.inr ⟨hxy.trans hyz, partsLeB_trans h1' h2'⟩)

theorem partsLeB_total :
    ∀ a b : List String, partsLeB a b = true ∨ partsLeB b a = true
  | [], _ => Or.inl rfl
  | _ :: _, [] => Or.inr rfl
  | x :: as, y :: bs => by
    rcases pyStrLt_total x y with h | h | h
    · exact Or.inl (partsLeB_cons_iff.mpr (Or.inl h))
    · subst h
      rcases partsLeB_total as bs with h2 | h2
      · exact Or.inl (partsLeB_cons_iff.mpr (Or.inr ⟨rfl, h2⟩))
      · exact Or.inr (partsLeB_cons_iff.mpr (Or.inr ⟨rfl, h2⟩))
    · exact Or.inr (partsLeB_cons_iff.mpr (Or.inl h))

instance : IsTotal MdFile fileLe :=
  ⟨fun f g => partsLeB_total f.parts g.parts⟩

instance : IsTrans MdFile fileLe :=
  ⟨fun _ _ _ => partsLeB_trans⟩

/-! ## Sorting commutes with the skip filter -/

theorem orderedInsert_of_forall_le {f : MdFile} :
    ∀ {m : List MdFile}, (∀ x ∈ m, fileLe f x) → m.orderedInsert fileLe f = f :: m
  | [], _ => rfl
  | b :: t, h => by
    simp only [List.orderedInsert, if_pos (h b (List.mem_cons_self b t))]

theorem filter_orderedInsert_neg {p : MdFile → Bool} {f : MdFile} (hf : p f = false) :
    ∀ l : List MdFile, (l.orderedInsert fileLe f).filter p = l.filter p
  | [] => by simp [List.orderedInsert, List.filter_cons, hf]
  | b :: t => by
    by_cases hfb : fileLe f b
    · simp [List.orderedInsert, if_pos hfb, List.filter_cons, hf]
    · simp only [List.orderedInsert, if_neg hfb, List.filter_cons]
      rw [filter_orderedInsert_neg hf t]

theorem filter_orderedInsert_pos {p : MdFile → Bool} {f : MdFile} (hf : p f = true) :
    ∀ {l : List MdFile}, l.Sorted fileLe →
      (l.orderedInsert fileLe f).filter p = (l.filter p).orderedInsert fileLe f
  | [], _ => by simp [List.orderedInsert, List.filter_cons, hf]
  | b :: t, hs => by
    by_cases hfb : fileLe f b
    · by_cases hpb : p b = true
      · simp [List.orderedInsert, if_pos hfb, List.filter_cons, hf, hpb]
      · have hall : ∀ x ∈ t.filter p, fileLe f x := by
          intro x hx
          exact Trans.trans hfb
            (List.rel_of_sorted_cons hs x (List.mem_of_mem_filter hx))
        simp only [List.orderedInsert, if_pos hfb, List.filter_cons, hf, hpb,
          Bool.false_eq_true, if_false, if_true]
        rw [orderedInsert_of_forall_le hall]
    · by_cases hpb : p b = true
      · simp only [List.orderedInsert, if_neg hfb, List.filter_cons, hpb, if_true]
        rw [filter_orderedInsert_pos hf hs.of_cons]
      · simp only [List.orderedInsert, if_neg hfb, List.filter_cons, hpb,
          Bool.false_eq_true, if_false]
        exact filter_orderedInsert_pos hf hs.of_cons

theorem filter_insertionSort (p : MdFile → Bool) :
    ∀ l : List MdFile, (l.insertionSort fileLe).filter p = (l.filter p).insertionSort fileLe
  | [] => rfl
  | a :: t => by
    by_cases hpa : p a = true
    · rw [List.insertionSort, filter_orderedInsert_pos hpa (List.sorted_insertionSort fileLe t),
        filter_insertionSort p t, List.filter_cons, if_pos hpa, List.insertionSort]
    · have hpa' : p a = false := by simpa using hpa
      rw [List.insertionSort, filter_orderedInsert_neg hpa',
        filter_insertionSort p t, List.filter_cons]
      simp [hpa']

/-! ## The front-matter line loop is last-match-wins -/

theorem fmLineStep_fst (st : String × String) (line : String) :
    (fmLineStep st line).1 = (titleMatchOf line).getD st.1 := by
  show (if "title".toList.isPrefixOf (pyStrip line.toList) then _ else _) = _
  unfold titleMatchOf
  by_cases h : "title".toList.isPrefixOf (pyStrip line.toList) = true
  · rw [if_pos h, if_pos h]
    cases hr : reSearchKeyQuoted "title".toList line.toList <;> simp [hr]
  · rw [if_neg h, if_neg h]
    rfl

theorem fmLineStep_snd (st : String × String) (line : String) :
    (fmLineStep st line).2 = (descMatchOf line).getD st.2 := by
  show (if "description".toList.isPrefixOf (pyStrip line.toList) then _ else _) = _
  unfold descMatchOf
  by_cases h : "description".toList.isPrefixOf (pyStrip line.toList) = true
  · rw [if_pos h, if_pos h]
    cases hr : reSearchKeyQuoted "description".toList line.toList <;> simp [hr]
  · rw [if_neg h, if_neg h]
    rfl

theorem fmFold_fst :
    ∀ (lines : List String) (st : String × String),
      (lines.foldl fmLineStep st).1 = (lines.filterMap titleMatchOf).getLastD st.1
  | [], _ => rfl
  | l :: ls, st => by
    rw [List.foldl_cons]
    cases hl : titleMatchOf l with
    | none =>
      rw [List.filterMap_cons_none hl, fmFold_fst ls, fmLineStep_fst, hl]
      rfl
    | some v =>
      rw [List.filterMap_cons_some hl, fmFold_fst ls, fmLineStep_fst, hl,
        List.getLastD_cons]
      rfl

theorem fmFold_snd :
    ∀ (lines : List String) (st : String × String),
      (lines.foldl fmLineStep st).2 = (lines.filterMap descMatchOf).getLastD st.2
  | [], _ => rfl
  | l :: ls, st => by
    rw [List.foldl_cons]
    cases hl : descMatchOf l with
    | none =>
      rw [List.filterMap_cons_none hl, fmFold_snd ls, fmLineStep_snd, hl]
      rfl
    | some v =>
      rw [List.filterMap_cons_some hl, fmFold_snd ls, fmLineStep_snd, hl,
        List.getLastD_cons]
      rfl

/-! ## Small string facts -/

theorem strData_append (a b : String) : (a ++ b).data = a.data ++ b.data := rfl

theorem strExt {a b : String} (h : a.data = b.data) : a = b := by
  cases a with
  | mk la =>
    cases b with
    | mk lb => exact congrArg String.mk h

theorem append_slash_empty_slash (b : String) : b ++ "/" ++ "" ++ "/" = b ++ "//" := by
  apply strExt
  show ((b.data ++ ['/']) ++ []) ++ ['/'] = b.data ++ ['/', '/']
  simp

theorem toList_eq_nil_iff (s : String) : s.toList = [] ↔ s = "" := by
  constructor
  · intro h
    cases s with
    | mk l => exact congrArg String.mk h
  · intro h
    rw [h]
    rfl

theorem intercalate_slash_cons_ne_nil {x : List Char} (hx : x ≠ []) :
    ∀ m : List (List Char), List.intercalate ['/'] (x :: m) ≠ []
  | [] => by simpa [List.intercalate] using hx
  | y :: ys => by
    simp [List.intercalate, List.intersperse_cons_cons]

theorem joinSlash_ne_empty {c0 : String} (hc : c0 ≠ "") (rest : List String) :
    joinSlash (c0 :: rest) ≠ "" := by
  intro h
  rw [← toList_eq_nil_iff] at h
  have hx : c0.toList ≠ [] := fun hh => hc ((toList_eq_nil_iff c0).mp hh)
  exact intercalate_slash_cons_ne_nil hx (rest.map String.toList) h

/-- Reduction of `mainEntries` once the base URL is known. -/
theorem mainEntries_eq (config : Option (List String)) (files : List MdFile)
    (base : String) (hbase : get_base_url config = .ok base) :
    mainEntries config files =
      match ((files.insertionSort fileLe).filter fun f => !skipFile f).mapM
          (fileEntry base) with
      | .error e => .error e
      | .ok es => .ok (staticEntries base ++ es) := by
  unfold mainEntries
  rw [hbase]

/-! ## Claims -/

/-- C1 counterexample: on text that begins with `+++` and has no closing
`+++`, the extractor does *not* return the defaults — it fails
(`text.index("+++", 3)` raises an uncaught `ValueError`, modelled as
`none`). -/
theorem C1_counterexample :
    parse_front_matter "page" "+++\ntitle = \"Hello\"" = none ∧
      parse_front_matter "page" "+++\ntitle = \"Hello\"" ≠
        some (defaultTitle "page", "") := by
  constructor
  · decide
  · decide

/-- C1 (amended): the extractor fails exactly when the text begins with the
`+++` delimiter but `+++` has no occurrence at index 3 or later; in every
other case it returns a result (defaults apply when the text does not start
with `+++`). -/
theorem C1_amended_unclosed_front_matter_fails (stem text : String) :
    parse_front_matter stem text = none ↔
      ("+++".toList.isPrefixOf text.toList = true ∧
        strIndexFrom text.toList "+++".toList 3 = none) := by
  unfold parse_front_matter
  by_cases h : "+++".toList.isPrefixOf text.toList = true
  · rw [if_pos h]
    cases hidx : strIndexFrom text.toList "+++".toList 3 with
    | none => exact iff_of_true rfl ⟨h, rfl⟩
    | some e =>
      refine iff_of_false (fun hsome => Option.noConfusion hsome) ?_
      rintro ⟨-, hnone⟩
      exact Option.noConfusion hnone
  · rw [if_neg h]
    refine iff_of_false (fun hsome => Option.noConfusion hsome) ?_
    rintro ⟨h1, -⟩
    exact h h1

/-- C2 counterexample: with the configuration file missing, the reader does
not fall back to the hardcoded default — `open(CONFIG)` raises an uncaught
`FileNotFoundError`. -/
theorem C2_counterexample :
    get_base_url none = Except.error () ∧
      get_base_url none ≠ Except.ok defaultBaseUrl := by
  refine ⟨rfl, fun h => ?_⟩
  exact Except.noConfusion h

/-- C2 (amended): when the configuration file exists but no line matches the
quoted `base_url` pattern, the reader returns the hardcoded default without
error; when a matching line exists, the first match wins and every trailing
`/` is stripped from the captured value.  (A missing file, by contrast,
raises.) -/
theorem C2_amended_base_url_fallback :
    (∀ lines : List String, (∀ l ∈ lines, baseUrlMatch l = none) →
      get_base_url (some lines) = .ok defaultBaseUrl) ∧
    (∀ (pre : List String) (line : String) (post : List String) (v : String),
      (∀ l ∈ pre, baseUrlMatch l = none) → baseUrlMatch line = some v →
      get_base_url (some (pre ++ line :: post)) =
        .ok (String.mk (rstripSlash v.toList))) := by
  constructor
  · intro lines h
    have hscan : baseUrlScan lines = none := by
      induction lines with
      | nil => rfl
      | cons l ls ih =>
        have h1 : baseUrlMatch l = none := h l (List.mem_cons_self l ls)
        simp only [baseUrlScan, h1]
        exact ih fun x hx => h x (List.mem_cons_of_mem l hx)
    simp [get_base_url, hscan]
  · intro pre line post v hpre hline
    have hscan : baseUrlScan (pre ++ line :: post) =
        some (String.mk (rstripSlash v.toList)) := by
      induction pre with
      | nil => simp [baseUrlScan, hline]
      | cons l ls ih =>
        have h1 : baseUrlMatch l = none := hpre l (List.mem_cons_self l ls)
        simp only [List.cons_append, baseUrlScan, h1]
        exact ih fun x hx => hpre x (List.mem_cons_of_mem l hx)
    simp [get_base_url, hscan]

/-- C2 witness: the two amended clauses at concrete configuration states. -/
theorem C2_amended_base_url_fallback_witness :
    get_base_url (some ["# comment", "x = 1"]) = .ok defaultBaseUrl ∧
    get_base_url (some ["# c", "base_url = \"https://e.org/\"", "base_url = \"zzz\""]) =
      .ok "https://e.org" := by
  constructor
  · exact C2_amended_base_url_fallback.1 ["# comment", "x = 1"] (by decide)
  · have h := C2_amended_base_url_fallback.2 ["# c"] "base_url = \"https://e.org/\""
      ["base_url = \"zzz\""] "https://e.org/" (by decide) (by decide)
    exact h.trans (congrArg Except.ok (by decide))

/-- C3 counterexample: the deriver does not strip only a trailing `.md`; on
`docs/a.md.md` it removes both occurrences, yielding `.../docs/a/` instead of
the claimed `.../docs/a.md/`. -/
theorem C3_counterexample :
    path_to_url "docs/a.md.md" "https://x.test" = "https://x.test/docs/a/" ∧
      path_to_url "docs/a.md.md" "https://x.test" ≠ "https://x.test/docs/a.md/" := by
  constructor
  · decide
  · decide

/-- C3 (amended): for a separator-normalized path whose final component ends
in `.md` and is not `_index.md`, the deriver removes *every* occurrence of
`.md` from the final component (which equals stripping the trailing `.md`
whenever `.md` occurs only as the suffix) and returns
`base ++ "/" ++ join(init ++ [stripped]) ++ "/"`; `docs/guide.md` still maps
to `https://x.test/docs/guide/`. -/
theorem C3_amended_page_url :
    (∀ (rel base lastc : String) (parts : List String),
      splitParts rel = parts →
      parts.getLast? = some lastc →
      ".md".toList.isSuffixOf lastc.toList = true →
      lastc ≠ "_index.md" →
      path_to_url rel base =
        base ++ "/" ++
          joinSlash (parts.dropLast ++ [String.mk (pyReplace ".md".toList [] lastc.toList)]) ++
          "/") ∧
    path_to_url "docs/guide.md" "https://x.test" = "https://x.test/docs/guide/" := by
  constructor
  · intro rel base lastc parts hsplit hlast _ hne
    unfold path_to_url
    rw [hsplit, hlast]
    have hcond : ¬(some lastc = some "_index.md") := by
      intro hc
      exact hne (Option.some.inj hc)
    rw [if_neg hcond]
    rfl
  · decide

/-- C3 witness: the amended rule applied to the multi-`.md` component. -/
theorem C3_amended_page_url_witness :
    path_to_url "docs/a.md.md" "https://x.test" =
      "https://x.test" ++ "/" ++ joinSlash (["docs"] ++ [String.mk (pyReplace ".md".toList [] "a.md.md".toList)]) ++ "/" :=
  C3_amended_page_url.1 "docs/a.md.md" "https://x.test" "a.md.md" ["docs", "a.md.md"]
    (by decide) (by decide) (by decide) (by decide)

/-- C4: when the final component is exactly `_index.md` the URL is the base
URL, a slash, the remaining components joined by `/`, and a trailing slash;
`docs/_index.md` maps to `https://x.test/docs/`, and a bare top-level
`_index.md` yields the uncorrected double slash `base ++ "//"`. -/
theorem C4_section_index_url :
    (∀ (rel base : String) (parts : List String),
      splitParts rel = parts →
      parts.getLast? = some "_index.md" →
      path_to_url rel base = base ++ "/" ++ joinSlash parts.dropLast ++ "/") ∧
    path_to_url "docs/_index.md" "https://x.test" = "https://x.test/docs/" ∧
    (∀ base : String, path_to_url "_index.md" base = base ++ "//") := by
  refine ⟨fun rel base parts hsplit hlast => ?_, by decide, fun base => ?_⟩
  · unfold path_to_url
    rw [hsplit, hlast]
    rw [if_pos rfl]
  · unfold path_to_url
    have hsplit : splitParts "_index.md" = ["_index.md"] := by decide
    rw [hsplit, if_pos (by decide : ["_index.md"].getLast? = some "_index.md")]
    show base ++ "/" ++ "" ++ "/" = base ++ "//"
    exact append_slash_empty_slash base

/-- C4 witness: the general `_index.md` rule applied to `docs/_index.md`. -/
theorem C4_section_index_url_witness :
    path_to_url "docs/_index.md" "https://x.test" =
      "https://x.test" ++ "/" ++ joinSlash ["docs"] ++ "/" :=
  C4_section_index_url.1 "docs/_index.md" "https://x.test" ["docs", "_index.md"]
    (by decide) (by decide)

/-- C5: a file whose first relative-path component starts with `_` is skipped
before parsing, so it contributes nothing to the run: dropping all such files
from the tree leaves the result unchanged, and a tree holding only
`_drafts/secret.md` yields exactly the two static entries whatever the file's
content. -/
theorem C5_underscore_exclusion :
    (∀ (config : Option (List String)) (files : List MdFile),
      mainEntries config files =
        mainEntries config (files.filter fun f => !skipFile f)) ∧
    (∀ t : String,
      mainEntries (some []) [⟨["_drafts", "secret.md"], t⟩] =
        .ok (staticEntries defaultBaseUrl)) := by
  constructor
  · intro config files
    unfold mainEntries
    cases get_base_url config with
    | error e => rfl
    | ok base =>
      have hk : (files.insertionSort fileLe).filter (fun f => !skipFile f) =
          ((files.filter fun f => !skipFile f).insertionSort fileLe).filter
            (fun f => !skipFile f) := by
        rw [filter_insertionSort, filter_insertionSort, List.filter_filter]
        have hpp : (fun f => !skipFile f && !skipFile f) = fun f => !skipFile f := by
          funext f
          cases skipFile f <;> rfl
        rw [hpp]
      rw [hk]
  · intro t
    rfl

/-- C6 counterexample: the scan is ordered by path-component tuples (CPython
`Path` ordering), not by the full path string; with files `a-b/x.md` and
`a/x.md` the code puts `a/x.md` first, while full-path-string lexicographic
order (`-` < `/`) puts `a-b/x.md` first. -/
theorem C6_counterexample :
    mainEntries (some []) [⟨["a-b", "x.md"], ""⟩, ⟨["a", "x.md"], ""⟩] ≠
      spec_mainEntries (some []) [⟨["a-b", "x.md"], ""⟩, ⟨["a", "x.md"], ""⟩] ∧
    mainEntries (some []) [⟨["a-b", "x.md"], ""⟩, ⟨["a", "x.md"], ""⟩] =
      .ok (staticEntries defaultBaseUrl ++
        [⟨"X", defaultBaseUrl ++ "/a/x/", ""⟩, ⟨"X", defaultBaseUrl ++ "/a-b/x/", ""⟩]) ∧
    spec_mainEntries (some []) [⟨["a-b", "x.md"], ""⟩, ⟨["a", "x.md"], ""⟩] =
      .ok (staticEntries defaultBaseUrl ++
        [⟨"X", defaultBaseUrl ++ "/a-b/x/", ""⟩, ⟨"X", defaultBaseUrl ++ "/a/x/", ""⟩]) := by
  refine ⟨fun h => ?_, rfl, rfl⟩
  have h3 : (Except.ok (staticEntries defaultBaseUrl ++
      [(⟨"X", defaultBaseUrl ++ "/a/x/", ""⟩ : Entry), ⟨"X", defaultBaseUrl ++ "/a-b/x/", ""⟩]) :
        Except Unit (List Entry)) =
      Except.ok (staticEntries defaultBaseUrl ++
        [⟨"X", defaultBaseUrl ++ "/a-b/x/", ""⟩, ⟨"X", defaultBaseUrl ++ "/a/x/", ""⟩]) := h
  exact absurd (Except.ok.inj h3) (by decide)

/-- C6 (amended): on a successful run the first two output entries are the
hardcoded "Context Harness" and "Demo" records, and the remaining entries are
exactly those of the non-excluded files ordered by component-tuple
lexicographic order (CPython path ordering) — which for sibling files such as
`a.md`, `b.md` is plain filename order. -/
theorem C6_amended_output_order (config : Option (List String)) (files : List MdFile)
    (base : String) (es : List Entry)
    (hbase : get_base_url config = .ok base)
    (hok : mainEntries config files = .ok es) :
    es.take 2 = staticEntries base ∧
    ∃ kept : List MdFile,
      List.Perm kept (files.filter fun f => !skipFile f) ∧
      kept.Sorted fileLe ∧
      kept.mapM (fileEntry base) = .ok (es.drop 2) := by
  rw [mainEntries_eq config files base hbase] at hok
  cases hm : ((files.insertionSort fileLe).filter fun f => !skipFile f).mapM
      (fileEntry base) with
  | error e =>
    rw [hm] at hok
    exact Except.noConfusion hok
  | ok es2 =>
    rw [hm] at hok
    have hes : es = staticEntries base ++ es2 := (Except.ok.inj hok).symm
    subst hes
    refine ⟨?_, (files.insertionSort fileLe).filter (fun f => !skipFile f), ?_, ?_, ?_⟩
    · rw [show (2 : Nat) = (staticEntries base).length from rfl]
      exact List.take_left _ _
    · exact (List.perm_insertionSort fileLe files).filter _
    · exact (List.sorted_insertionSort fileLe files).filter _
    · rw [show (2 : Nat) = (staticEntries base).length from rfl, List.drop_left]
      exact hm

/-- C6 witness: the amended ordering statement at a concrete two-file tree. -/
theorem C6_amended_output_order_witness :
    ((staticEntries defaultBaseUrl ++
        [(⟨"A", defaultBaseUrl ++ "/a/", ""⟩ : Entry),
         ⟨"B", defaultBaseUrl ++ "/b/", ""⟩]).take 2 = staticEntries defaultBaseUrl ∧
      ∃ kept : List MdFile,
        List.Perm kept
          ([⟨["b.md"], "b"⟩, ⟨["a.md"], "a"⟩].filter fun f => !skipFile f) ∧
        kept.Sorted fileLe ∧
        kept.mapM (fileEntry defaultBaseUrl) =
          .ok ((staticEntries defaultBaseUrl ++
            [(⟨"A", defaultBaseUrl ++ "/a/", ""⟩ : Entry),
             ⟨"B", defaultBaseUrl ++ "/b/", ""⟩]).drop 2)) :=
  C6_amended_output_order (some []) [⟨["b.md"], "b"⟩, ⟨["a.md"], "a"⟩]
    defaultBaseUrl _ rfl rfl

/-- C7: within a well-delimited front-matter block the line scan is
last-match-wins for both keys (the final state of the fold is the last
matching line's capture, the default when no line matches); the
`Hello`/`World` text parses to `("Hello", "World")`, and with two `title`
lines the second wins. -/
theorem C7_front_matter_override :
    (∀ (stem text : String) (e : Nat),
      "+++".toList.isPrefixOf text.toList = true →
      strIndexFrom text.toList "+++".toList 3 = some e →
      parse_front_matter stem text =
        some (((fmLinesOf text e).filterMap titleMatchOf).getLastD (defaultTitle stem),
              ((fmLinesOf text e).filterMap descMatchOf).getLastD "")) ∧
    parse_front_matter "x" "+++\ntitle = \"Hello\"\ndescription = \"World\"\n+++\nbody" =
      some ("Hello", "World") ∧
    parse_front_matter "x" "+++\ntitle = \"A\"\ntitle = \"B\"\n+++\n" = some ("B", "") := by
  refine ⟨fun stem text e hpre hidx => ?_, by decide, by decide⟩
  unfold parse_front_matter
  rw [if_pos hpre, hidx]
  exact congrArg some (Prod.ext (fmFold_fst _ _) (fmFold_snd _ _))

/-- C7 witness: the general last-match-wins form at the two-`title` text,
whose closing delimiter sits at index 28. -/
theorem C7_front_matter_override_witness :
    parse_front_matter "x" "+++\ntitle = \"A\"\ntitle = \"B\"\n+++\n" =
      some (((fmLinesOf "+++\ntitle = \"A\"\ntitle = \"B\"\n+++\n" 28).filterMap
              titleMatchOf).getLastD (defaultTitle "x"),
            ((fmLinesOf "+++\ntitle = \"A\"\ntitle = \"B\"\n+++\n" 28).filterMap
              descMatchOf).getLastD "") :=
  C7_front_matter_override.1 "x" "+++\ntitle = \"A\"\ntitle = \"B\"\n+++\n" 28
    (by decide) (by decide)

/-- C8: without a leading `+++` the extractor returns the derived default
title (stem with `-`/`_` turned into spaces, then title-cased) and an empty
description; the stem of `my-page_name.md` is `my-page_name` and its derived
title is `"My Page Name"`. -/
theorem C8_default_title :
    (∀ stem text : String, ¬ "+++".toList.isPrefixOf text.toList = true →
      parse_front_matter stem text = some (defaultTitle stem, "")) ∧
    pyStem "my-page_name.md" = "my-page_name" ∧
    defaultTitle "my-page_name" = "My Page Name" := by
  refine ⟨fun stem text h => ?_, by decide, by decide⟩
  unfold parse_front_matter
  rw [if_neg h]

/-- C8 witness: the general default case at a concrete file. -/
theorem C8_default_title_witness :
    parse_front_matter "my-page_name" "hello body" = some ("My Page Name", "") :=
  (C8_default_title.1 "my-page_name" "hello body" (by decide)).trans (by decide)

/-- C9: a rerun over unchanged inputs reproduces the output file byte for
byte (the output is rewritten wholesale from a fresh scan), and on a
successful scan the written content does not depend on whatever the output
file held before. -/
theorem C9_idempotent_rerun :
    (∀ (config : Option (List String)) (files : List MdFile) (prev : String),
      runFileResult config files (runFileResult config files prev) =
        runFileResult config files prev) ∧
    (∀ (config : Option (List String)) (files : List MdFile) (es : List Entry)
        (prev prev2 : String), mainEntries config files = .ok es →
      runFileResult config files prev = runFileResult config files prev2) := by
  constructor
  · intro config files prev
    unfold runFileResult
    cases mainEntries config files <;> rfl
  · intro config files es prev prev2 h
    unfold runFileResult
    rw [h]

/-- C9 witness: prior output content is irrelevant to a successful run. -/
theorem C9_idempotent_rerun_witness :
    runFileResult (some []) [] "stale content" = runFileResult (some []) [] "other" :=
  C9_idempotent_rerun.2 (some []) [] (staticEntries defaultBaseUrl)
    "stale content" "other" rfl

/-- C10 counterexample: the double-slash URL is not confined to the excluded
root `_index.md`: a root-level file named `.md` (matched by `rglob("*.md")`,
not underscore-excluded) erases to an empty stem and is indexed with URL
`base_url ++ "//"`. -/
theorem C10_counterexample :
    skipFile ⟨[".md"], "body"⟩ = false ∧
    mainEntries (some []) [⟨[".md"], "body"⟩] =
      .ok (staticEntries defaultBaseUrl ++ [⟨".Md", defaultBaseUrl ++ "//", ""⟩]) ∧
    (⟨".Md", defaultBaseUrl ++ "//", ""⟩ : Entry) ∈
      staticEntries defaultBaseUrl ++ [⟨".Md", defaultBaseUrl ++ "//", ""⟩] := by
  exact ⟨rfl, rfl, by decide⟩

/-- C10 (amended): the underscore rule does apply to top-level files, so a
root `_index.md` is excluded; hence no *non-excluded* file whose final
component is `_index.md` can produce `base ++ "//"` — when the double slash
occurs it comes from the ordinary-page branch (e.g. a root file named `.md`),
never from the section-index branch. -/
theorem C10_amended_no_index_double_slash :
    (∀ name t : String, "_".toList.isPrefixOf name.toList = true →
      skipFile ⟨[name], t⟩ = true) ∧
    (∀ (base rel : String) (parts : List String),
      splitParts rel = parts →
      parts.getLast? = some "_index.md" →
      (∀ c ∈ parts, c ≠ "") →
      ¬ "_".toList.isPrefixOf ((parts.head?.getD "").toList) = true →
      path_to_url rel base ≠ base ++ "//") := by
  constructor
  · intro name t h
    exact h
  · intro base rel parts hsplit hlast hc hhead hurl
    cases parts with
    | nil => exact Option.noConfusion hlast
    | cons c0 rest =>
      cases rest with
      | nil =>
        have hx : c0 = "_index.md" := Option.some.inj hlast
        subst hx
        exact hhead (by decide)
      | cons c1 rest2 =>
        unfold path_to_url at hurl
        rw [hsplit, if_pos hlast] at hurl
        have hdrop : (c0 :: c1 :: rest2).dropLast = c0 :: (c1 :: rest2).dropLast := rfl
        rw [hdrop] at hurl
        have hc0 : c0 ≠ "" := hc c0 (List.mem_cons_self _ _)
        have hlen := congrArg String.length hurl
        have l1 : ("/" : String).length = 1 := rfl
        have l2 : ("//" : String).length = 2 := rfl
        simp only [String.length_append, l1, l2] at hlen
        have hJ : (joinSlash (c0 :: (c1 :: rest2).dropLast)).length = 0 := by omega
        have hJnil : (joinSlash (c0 :: (c1 :: rest2).dropLast)).data = [] :=
          List.eq_nil_of_length_eq_zero hJ
        exact joinSlash_ne_empty hc0 _ (strExt hJnil)

/-- C10 witness: both amended clauses at concrete inputs. -/
theorem C10_amended_no_index_double_slash_witness :
    skipFile ⟨["_index.md"], "x"⟩ = true ∧
    path_to_url "docs/_index.md" "https://x.test" ≠ "https://x.test" ++ "//" := by
  constructor
  · exact C10_amended_no_index_double_slash.1 "_index.md" "x" (by decide)
  · exact C10_amended_no_index_double_slash.2 "https://x.test" "docs/_index.md"
      ["docs", "_index.md"] (by decide) (by decide) (by decide) (by decide)

end SiteIndex
